import Mathlib

set_option maxHeartbeats 1000000
set_option linter.unusedSectionVars false

/-!
Verification of the `cloudr` crate's `DataCloud` container.

The container `DataCloud<'a, K, V>` wraps a `HashMap<K, &'a V>` in a
`RefCell`.  We embed it as an association list `List (K × Ref V)` whose list
order models the hash map's (unspecified) iteration order:

* `HashMap::insert` on an existing key updates the value in place (the entry
  keeps its position in iteration order); on a new key the entry appears at
  some position, modelled here as the end of the list.
* `HashMap::remove` drops the matching entry and leaves the relative order of
  the remaining entries unchanged.
* Iterating the map visits the entries in list order.

A stored `&'a V` reference is modelled by `Ref V`: `addr` is the pointer
identity of the reference and `val` is the pointed-to value.  Rust's `==` on
references compares the pointed-to values, so the model's translation of a
source-level `==` on values of type `&V` compares only `val`; reference
identity ("the same reference, not merely an equal value") is equality of the
whole `Ref`, `addr` included.
-/

namespace Cloudr

/-- Model of a borrowed reference `&'a V`: `addr` is the pointer identity,
`val` the pointed-to value. -/
structure Ref (V : Type) where
  addr : Nat
  val : V
  deriving DecidableEq

/-- Model of `DataCloud<'a, K, V>`: the entries of the backing
`HashMap<K, &'a V>` in iteration order. -/
abbrev Cloud (K V : Type) := List (K × Ref V)

variable {K V : Type} [DecidableEq K] [DecidableEq V]

/-- `DataCloud::get` (cloud.rs:131): a linear scan over the entries comparing
every stored key with the searched key, returning the first match. -/
def lookupScan (c : Cloud K V) (k : K) : Option (Ref V) :=
  match c with
  | [] => none
  | (k', r) :: t => if k' = k then some r else lookupScan t k

/-- `HashMap::insert` as used by `DataCloud::insert` (cloud.rs:94): replace
the value of an existing entry in place, or add a new entry; also return the
previously stored reference, if any. -/
def insertNode (c : Cloud K V) (k : K) (r : Ref V) : Cloud K V × Option (Ref V) :=
  match c with
  | [] => ([(k, r)], none)
  | (k', r') :: t =>
    if k' = k then ((k, r) :: t, some r')
    else
      let res := insertNode t k r
      ((k', r') :: res.1, res.2)

/-- The state after `DataCloud::insert` (cloud.rs:94). -/
def insertPair (c : Cloud K V) (k : K) (r : Ref V) : Cloud K V := (insertNode c k r).1

/-- `DataCloud::contains_key` (cloud.rs:243): `HashMap::contains_key`. -/
def containsKey (c : Cloud K V) (k : K) : Bool := c.any (fun kv => decide (kv.1 = k))

/-- `DataCloud::or_insert` (cloud.rs:109): insert only when the key is
absent; return `true` exactly when the key was already present. -/
def or_insert (c : Cloud K V) (k : K) (r : Ref V) : Cloud K V × Bool :=
  if containsKey c k then (c, true) else (insertPair c k r, false)

/-- `HashMap::remove` as used by `DataCloud::remove` (cloud.rs:180): drop the
matching entry, keep the others in order, and return the removed reference. -/
def removeNode (c : Cloud K V) (k : K) : Cloud K V × Option (Ref V) :=
  match c with
  | [] => ([], none)
  | (k', r) :: t =>
    if k' = k then (t, some r)
    else
      let res := removeNode t k
      ((k', r) :: res.1, res.2)

/-- The state after `DataCloud::remove` (cloud.rs:180). -/
def removePair (c : Cloud K V) (k : K) : Cloud K V := (removeNode c k).1

/-- The error type of error.rs: `NullPointerError(pub String)`. -/
structure NullPointerError where
  msg : String
  deriving DecidableEq

/-- `DataCloud::insert_from_raw` (cloud.rs:349).  A raw pointer `*const V` is
modelled as `Option (Ref V)` with `none` for the null pointer.  On a null
pointer the container is untouched and the null-pointer error is returned;
otherwise the call defers to `insert`. -/
def insert_from_raw (c : Cloud K V) (k : K) (p : Option (Ref V)) :
    Cloud K V × Except NullPointerError (Option (Ref V)) :=
  match p with
  | none => (c, Except.error ⟨"Tried to insert null pointer in DataCloud"⟩)
  | some r => ((insertNode c k r).1, Except.ok (insertNode c k r).2)

/-- Rust `==` on a `(&K, &&V)` pair (used by `PartialEq for DataCloud`,
cloud.rs:836): key equality together with value equality of the pointees. -/
def pairBeq (p q : K × Ref V) : Bool := decide (p.1 = q.1) && decide (p.2.val = q.2.val)

/-- `PartialEq for DataCloud` (cloud.rs:836): zip the two entry iterators and
require every zipped pair of entries to be `==`; the lengths are never
compared. -/
def cloudEq (a b : Cloud K V) : Bool := (a.zip b).all (fun pq => pairBeq pq.1 pq.2)

/-- `DataCloud::into_vec` (cloud.rs:475): collect the entries in iteration
order. -/
def into_vec (c : Cloud K V) : List (K × Ref V) := c

/-- Inserting a list of pairs one after the other (the loops of `merge`,
`merge_all`, `combine_with`, `from_vec`). -/
def insertMany (c : Cloud K V) (l : List (K × Ref V)) : Cloud K V :=
  l.foldl (fun acc kv => insertPair acc kv.1 kv.2) c

/-- `DataCloud::from_vec` (cloud.rs:679): insert every pair of the vector, in
order, into a fresh map. -/
def from_vec (l : List (K × Ref V)) : Cloud K V := insertMany [] l

/-- `DataCloud::merge` (cloud.rs:709): insert self's entries into a fresh
cloud, then other's entries. -/
def merge (a b : Cloud K V) : Cloud K V := insertMany (insertMany [] a) b

/-- `DataCloud::merge_all` (cloud.rs:740): insert self's entries into a fresh
cloud, then each other cloud's entries in list order. -/
def merge_all (a : Cloud K V) (others : List (Cloud K V)) : Cloud K V :=
  others.foldl insertMany (insertMany [] a)

/-- `CombineWith::combine_with` for `DataCloud` (cloud.rs:914): drain each
cloud of the list, in list order, into a fresh cloud — the drain is
`into_iter`, which pops from the end of the snapshot vector, hence inserts in
reverse iteration order — then insert self's entries on top. -/
def combine_with (a : Cloud K V) (others : List (Cloud K V)) : Cloud K V :=
  insertMany (others.foldl (fun acc c => insertMany acc c.reverse) []) a

/-- The keys of a cloud, in iteration order. -/
def keysOf (c : Cloud K V) : List K := c.map Prod.fst

/-- The value held for `k` by the last cloud of `cs` that contains `k`. -/
def lastLookup (cs : List (Cloud K V)) (k : K) : Option (Ref V) :=
  match cs with
  | [] => none
  | c :: t =>
    match lastLookup t k with
    | some r => some r
    | none => lookupScan c k

/-- The value of the last entry of `l` whose key is `k`. -/
def lastEntry (l : List (K × Ref V)) (k : K) : Option (Ref V) :=
  match l with
  | [] => none
  | (k', r) :: t =>
    match lastEntry t k with
    | some r2 => some r2
    | none => if k' = k then some r else none

/-- `lastEntry` generalised to a list of entry lists (later lists win). -/
def lastCloudEntry (cs : List (Cloud K V)) (k : K) : Option (Ref V) :=
  match cs with
  | [] => none
  | c :: t =>
    match lastCloudEntry t k with
    | some r => some r
    | none => lastEntry c k

/-- `Vec::pop` (used by every iterator adapter of iter.rs): remove and return
the last element of the snapshot vector. -/
def vecPop {α : Type} (l : List α) : Option (α × List α) :=
  match l.getLast? with
  | none => none
  | some x => some (x, l.dropLast)

/-- Emit, by repeated `Vec::pop`, at most `fuel` elements of a vector. -/
def emitAll {α : Type} : Nat → List α → List α
  | 0, _ => []
  | n + 1, l =>
    match vecPop l with
    | none => []
    | some (x, rest) => x :: emitAll n rest

/-- The `IntoPairs` adapter of iter.rs: a snapshot vector of pairs. -/
structure IntoPairs (K V : Type) where
  pairs : List (K × Ref V)

/-- `DataCloud::into_pairs` (cloud.rs:292): snapshot the entries into a
vector at construction time. -/
def into_pairs (c : Cloud K V) : IntoPairs K V := ⟨c⟩

/-- `Iterator::next for IntoPairs` (iter.rs:15): `self.pairs.pop()`. -/
def IntoPairs.next (it : IntoPairs K V) : Option (K × Ref V) × IntoPairs K V :=
  match vecPop it.pairs with
  | none => (none, it)
  | some (x, rest) => (some x, ⟨rest⟩)

/-- Call `IntoPairs.next` at most `fuel` times, collecting the items. -/
def IntoPairs.drainAux : Nat → IntoPairs K V → List (K × Ref V)
  | 0, _ => []
  | n + 1, it =>
    match it.next with
    | (some x, it') => x :: IntoPairs.drainAux n it'
    | (none, _) => []

/-- Run an `IntoPairs` adapter to exhaustion, collecting every item. -/
def IntoPairs.drain (it : IntoPairs K V) : List (K × Ref V) :=
  IntoPairs.drainAux it.pairs.length it

/-- The `IntoIter` adapter of iter.rs: a snapshot vector of pairs. -/
structure IntoIter (K V : Type) where
  pairs : List (K × Ref V)

/-- `IntoIterator::into_iter for DataCloud` (cloud.rs:846): snapshot the
entries into a vector at construction time. -/
def into_iter (c : Cloud K V) : IntoIter K V := ⟨c⟩

/-- `Iterator::next for IntoIter` (iter.rs:38): `self.pairs.pop()`. -/
def IntoIter.next (it : IntoIter K V) : Option (K × Ref V) × IntoIter K V :=
  match vecPop it.pairs with
  | none => (none, it)
  | some (x, rest) => (some x, ⟨rest⟩)

/-- Call `IntoIter.next` at most `fuel` times, collecting the items. -/
def IntoIter.drainAux : Nat → IntoIter K V → List (K × Ref V)
  | 0, _ => []
  | n + 1, it =>
    match it.next with
    | (some x, it') => x :: IntoIter.drainAux n it'
    | (none, _) => []

/-- Run an `IntoIter` adapter to exhaustion, collecting every item. -/
def IntoIter.drain (it : IntoIter K V) : List (K × Ref V) :=
  IntoIter.drainAux it.pairs.length it

/-- The `Map` adapter of iter.rs: a snapshot vector of transformed pairs.
The source's `F: Fn((&K, &&'a V)) -> (K, V)` produces owned pairs. -/
structure Map (K V : Type) where
  pairs : List (K × V)

/-- `DataCloud::map` (cloud.rs:415): apply `f` to every entry at snapshot
time and store the transformed pairs in the snapshot vector. -/
def map (c : Cloud K V) (f : K × Ref V → K × V) : Map K V := ⟨c.map f⟩

/-- `Iterator::next for Map` (iter.rs:66): `self.pairs.pop()`. -/
def Map.next (it : Map K V) : Option (K × V) × Map K V :=
  match vecPop it.pairs with
  | none => (none, it)
  | some (x, rest) => (some x, ⟨rest⟩)

/-- Call `Map.next` at most `fuel` times, collecting the items. -/
def Map.drainAux : Nat → Map K V → List (K × V)
  | 0, _ => []
  | n + 1, it =>
    match it.next with
    | (some x, it') => x :: Map.drainAux n it'
    | (none, _) => []

/-- Run a `Map` adapter to exhaustion, collecting every item. -/
def Map.drain (it : Map K V) : List (K × V) :=
  Map.drainAux it.pairs.length it

/-- The `Iter` adapter of iter.rs: a snapshot vector of references to the
entries (a reference to an entry is modelled by the entry itself). -/
structure Iter (K V : Type) where
  pairs : List (K × Ref V)

/-- `DataCloud::iter` (cloud.rs:437): snapshot the entries into a vector at
construction time. -/
def iter (c : Cloud K V) : Iter K V := ⟨c⟩

/-- `Iterator::next for Iter` (iter.rs:94): `self.pairs.pop()`. -/
def Iter.next (it : Iter K V) : Option (K × Ref V) × Iter K V :=
  match vecPop it.pairs with
  | none => (none, it)
  | some (x, rest) => (some x, ⟨rest⟩)

/-- Call `Iter.next` at most `fuel` times, collecting the items. -/
def Iter.drainAux : Nat → Iter K V → List (K × Ref V)
  | 0, _ => []
  | n + 1, it =>
    match it.next with
    | (some x, it') => x :: Iter.drainAux n it'
    | (none, _) => []

/-- Run an `Iter` adapter to exhaustion, collecting every item. -/
def Iter.drain (it : Iter K V) : List (K × Ref V) :=
  Iter.drainAux it.pairs.length it

/-- The `IterMut` adapter of iter.rs: a snapshot vector of mutable references
to the entries (modelled by the entries themselves). -/
structure IterMut (K V : Type) where
  pairs : List (K × Ref V)

/-- `DataCloud::iter_mut` (cloud.rs:457): snapshot the entries into a vector
at construction time. -/
def iter_mut (c : Cloud K V) : IterMut K V := ⟨c⟩

/-- `Iterator::next for IterMut` (iter.rs:122): `self.pairs.pop()`. -/
def IterMut.next (it : IterMut K V) : Option (K × Ref V) × IterMut K V :=
  match vecPop it.pairs with
  | none => (none, it)
  | some (x, rest) => (some x, ⟨rest⟩)

/-- Call `IterMut.next` at most `fuel` times, collecting the items. -/
def IterMut.drainAux : Nat → IterMut K V → List (K × Ref V)
  | 0, _ => []
  | n + 1, it =>
    match it.next with
    | (some x, it') => x :: IterMut.drainAux n it'
    | (none, _) => []

/-- Run an `IterMut` adapter to exhaustion, collecting every item. -/
def IterMut.drain (it : IterMut K V) : List (K × Ref V) :=
  IterMut.drainAux it.pairs.length it

/-- A mutating operation on the container, for stating history properties:
`insert`, `remove`, `clear` (cloud.rs:331) and `retain` (cloud.rs:659). -/
inductive Op (K V : Type) where
  | insert : K → Ref V → Op K V
  | remove : K → Op K V
  | clear : Op K V
  | retain : (K → Ref V → Bool) → Op K V

/-- Apply one operation to the container state. -/
def applyOp (c : Cloud K V) : Op K V → Cloud K V
  | .insert k r => insertPair c k r
  | .remove k => removePair c k
  | .clear => []
  | .retain p => c.filter fun kv => p kv.1 kv.2

/-- Run a sequence of operations from the empty container
(`DataCloud::new`, cloud.rs:77). -/
def runOps (ops : List (Op K V)) : Cloud K V := ops.foldl applyOp []

/-- One step of the history-based specification of what is stored under `k`:
an insert of `k` records its reference, a remove of `k` (or a clear, or a
retain whose predicate rejects the recorded entry) forgets it, and
operations on other keys leave it alone. -/
def stepLookup (k : K) (st : Option (Ref V)) : Op K V → Option (Ref V)
  | .insert k' r => if k' = k then some r else st
  | .remove k' => if k' = k then none else st
  | .clear => none
  | .retain p => st.bind fun r => if p k r then some r else none

/-- The reference the history says is stored under `k` after `ops`. -/
def specLookup (ops : List (Op K V)) (k : K) : Option (Ref V) :=
  ops.foldl (stepLookup k) none

/-- Whether an operation is an insertion of the key `k`. -/
def opInserts (k : K) : Op K V → Bool
  | .insert k' _ => decide (k' = k)
  | _ => false

/-- Whether an operation touches the key `k` (`clear` and `retain` touch
every key). -/
def opTouches (k : K) : Op K V → Bool
  | .insert k' _ => decide (k' = k)
  | .remove k' => decide (k' = k)
  | .clear => true
  | .retain _ => true

/-- A concrete two-entry container (iteration order `0` then `1`). -/
def cEx : Cloud Nat Nat := [(0, ⟨0, 10⟩), (1, ⟨1, 11⟩)]

/-- The same two entries as `cEx` in the opposite iteration order. -/
def dEx : Cloud Nat Nat := [(1, ⟨1, 11⟩), (0, ⟨0, 10⟩)]

/-- A concrete two-entry container overlapping `cEx` on key `1`. -/
def bEx : Cloud Nat Nat := [(1, ⟨2, 3⟩), (2, ⟨3, 4⟩)]

/-- A concrete operation history: insert key `0`, then key `1`. -/
def opsEx : List (Op Nat Nat) := [Op.insert 0 ⟨0, 5⟩, Op.insert 1 ⟨1, 6⟩]

/-- A concrete operation suffix touching only key `1`. -/
def tailEx : List (Op Nat Nat) := [Op.insert 1 ⟨2, 7⟩, Op.remove 1]

/-- A concrete one-entry container. -/
def exShort : Cloud Nat Nat := [(0, ⟨5, 7⟩)]

/-- A concrete two-entry container whose first entry is `==`-equal to
`exShort`'s single entry (same key, pointee value `7` behind a different
reference). -/
def exLong : Cloud Nat Nat := [(0, ⟨6, 7⟩), (1, ⟨8, 9⟩)]

/-! ## Helper lemmas -/

theorem lookupScan_cons (k0 k : K) (r0 : Ref V) (t : Cloud K V) :
    lookupScan ((k0, r0) :: t) k = if k0 = k then some r0 else lookupScan t k := rfl

theorem insertPair_nil (k : K) (r : Ref V) :
    insertPair ([] : Cloud K V) k r = [(k, r)] := rfl

theorem insertPair_cons_eq (k0 k : K) (r0 r : Ref V) (t : Cloud K V) (h : k0 = k) :
    insertPair ((k0, r0) :: t) k r = (k, r) :: t := by
  simp [insertPair, insertNode, h]

theorem insertPair_cons_ne (k0 k : K) (r0 r : Ref V) (t : Cloud K V) (h : k0 ≠ k) :
    insertPair ((k0, r0) :: t) k r = (k0, r0) :: insertPair t k r := by
  simp [insertPair, insertNode, h]

theorem removePair_cons_eq (k0 k : K) (r0 : Ref V) (t : Cloud K V) (h : k0 = k) :
    removePair ((k0, r0) :: t) k = t := by
  simp [removePair, removeNode, h]

theorem removePair_cons_ne (k0 k : K) (r0 : Ref V) (t : Cloud K V) (h : k0 ≠ k) :
    removePair ((k0, r0) :: t) k = (k0, r0) :: removePair t k := by
  simp [removePair, removeNode, h]

theorem insertMany_cons (acc : Cloud K V) (k : K) (r : Ref V) (t : List (K × Ref V)) :
    insertMany acc ((k, r) :: t) = insertMany (insertPair acc k r) t := rfl

theorem lookupScan_insertPair (c : Cloud K V) (k k' : K) (r : Ref V) :
    lookupScan (insertPair c k r) k' = if k' = k then some r else lookupScan c k' := by
  induction c with
  | nil =>
    rcases eq_or_ne k' k with h | h
    · subst h; simp [insertPair_nil, lookupScan]
    · simp [insertPair_nil, lookupScan, h, Ne.symm h]
  | cons hd t ih =>
    obtain ⟨k0, r0⟩ := hd
    by_cases h0 : k0 = k
    · subst h0
      rcases eq_or_ne k' k0 with h | h
      · subst h
        simp [insertPair_cons_eq, lookupScan_cons]
      · rw [insertPair_cons_eq k0 k0 r0 r t rfl]
        simp [lookupScan_cons, h, Ne.symm h]
    · rw [insertPair_cons_ne k0 k r0 r t h0]
      rcases eq_or_ne k0 k' with h | h
      · subst h
        simp [lookupScan_cons, h0]
      · simp [lookupScan_cons, h, ih]

theorem containsKey_eq_isSome (c : Cloud K V) (k : K) :
    containsKey c k = (lookupScan c k).isSome := by
  induction c with
  | nil => rfl
  | cons hd t ih =>
    obtain ⟨k0, r0⟩ := hd
    by_cases h : k0 = k
    · simp [containsKey, lookupScan_cons, h]
    · simp only [containsKey, List.any_cons] at *
      simp [lookupScan_cons, h, ih]

theorem lookupScan_eq_none (c : Cloud K V) (k : K) (h : k ∉ keysOf c) :
    lookupScan c k = none := by
  induction c with
  | nil => rfl
  | cons hd t ih =>
    obtain ⟨k0, r0⟩ := hd
    simp only [keysOf, List.map_cons, List.mem_cons] at h
    push_neg at h
    rw [lookupScan_cons, if_neg (fun hh => h.1 hh.symm)]
    exact ih (by simpa [keysOf] using h.2)

theorem lastEntry_cons (k0 k : K) (r0 : Ref V) (t : List (K × Ref V)) :
    lastEntry ((k0, r0) :: t) k =
      ((lastEntry t k).or (if k0 = k then some r0 else none)) := by
  rw [lastEntry]
  cases lastEntry t k <;> simp [Option.or]

theorem lastEntry_eq_none (c : Cloud K V) (k : K) (h : k ∉ keysOf c) :
    lastEntry c k = none := by
  induction c with
  | nil => rfl
  | cons hd t ih =>
    obtain ⟨k0, r0⟩ := hd
    simp only [keysOf, List.map_cons, List.mem_cons] at h
    push_neg at h
    rw [lastEntry_cons, ih (by simpa [keysOf] using h.2),
      if_neg (fun hh => h.1 hh.symm)]
    rfl

theorem lastEntry_eq_lookupScan (c : Cloud K V) (k : K) (h : (keysOf c).Nodup) :
    lastEntry c k = lookupScan c k := by
  induction c with
  | nil => rfl
  | cons hd t ih =>
    obtain ⟨k0, r0⟩ := hd
    simp only [keysOf, List.map_cons, List.nodup_cons] at h
    obtain ⟨h1, h2⟩ := h
    by_cases h0 : k0 = k
    · subst h0
      rw [lastEntry_cons, lastEntry_eq_none t k0 (by simpa [keysOf] using h1)]
      simp [lookupScan_cons]
    · rw [lastEntry_cons, ih h2, lookupScan_cons, if_neg h0]
      cases lookupScan t k <;> simp [Option.or, h0]

theorem lookupScan_insertMany (l : List (K × Ref V)) (acc : Cloud K V) (k : K) :
    lookupScan (insertMany acc l) k = (lastEntry l k).or (lookupScan acc k) := by
  induction l generalizing acc with
  | nil => simp [insertMany, lastEntry, Option.none_or]
  | cons hd t ih =>
    obtain ⟨k', r⟩ := hd
    rw [insertMany_cons, ih, lookupScan_insertPair, lastEntry_cons]
    cases lastEntry t k with
    | some r2 => simp [Option.or]
    | none =>
      rcases eq_or_ne k' k with h | h
      · subst h; simp [Option.or]
      · simp [Option.or, h, Ne.symm h]

theorem lookupScan_foldl_insertMany (cs : List (Cloud K V)) (acc : Cloud K V) (k : K) :
    lookupScan (cs.foldl insertMany acc) k = (lastCloudEntry cs k).or (lookupScan acc k) := by
  induction cs generalizing acc with
  | nil => simp [lastCloudEntry, Option.none_or]
  | cons c t ih =>
    rw [List.foldl_cons, ih, lookupScan_insertMany, lastCloudEntry]
    cases lastCloudEntry t k <;> simp [Option.or]

theorem lookupScan_foldl_insertMany_rev (cs : List (Cloud K V)) (acc : Cloud K V) (k : K) :
    lookupScan (cs.foldl (fun a c => insertMany a c.reverse) acc) k =
      (lastCloudEntry (cs.map List.reverse) k).or (lookupScan acc k) := by
  induction cs generalizing acc with
  | nil => simp [lastCloudEntry, Option.none_or]
  | cons c t ih =>
    rw [List.foldl_cons, ih, lookupScan_insertMany, List.map_cons, lastCloudEntry]
    cases lastCloudEntry (t.map List.reverse) k <;> simp [Option.or]

theorem lastEntry_append_single (l : List (K × Ref V)) (k k' : K) (r : Ref V) :
    lastEntry (l ++ [(k', r)]) k = if k' = k then some r else lastEntry l k := by
  induction l with
  | nil =>
    rw [List.nil_append, lastEntry_cons]
    simp [lastEntry, Option.or]
  | cons hd t ih =>
    obtain ⟨k0, r0⟩ := hd
    rw [List.cons_append, lastEntry_cons, ih, lastEntry_cons]
    rcases eq_or_ne k' k with h | h
    · simp [h, Option.or]
    · simp [h, Option.or]

theorem lastEntry_reverse (l : List (K × Ref V)) (k : K) :
    lastEntry l.reverse k = lookupScan l k := by
  induction l with
  | nil => rfl
  | cons hd t ih =>
    obtain ⟨k0, r0⟩ := hd
    rw [List.reverse_cons, lastEntry_append_single, ih, lookupScan_cons]

theorem lastCloudEntry_eq_lastLookup (cs : List (Cloud K V)) (k : K)
    (h : ∀ c ∈ cs, (keysOf c).Nodup) :
    lastCloudEntry cs k = lastLookup cs k := by
  induction cs with
  | nil => rfl
  | cons c t ih =>
    have hc := h c (by simp)
    have ht : ∀ c' ∈ t, (keysOf c').Nodup := fun c' hm => h c' (by simp [hm])
    rw [lastCloudEntry, lastLookup, ih ht, lastEntry_eq_lookupScan c k hc]

theorem lastCloudEntry_map_reverse (cs : List (Cloud K V)) (k : K) :
    lastCloudEntry (cs.map List.reverse) k = lastLookup cs k := by
  induction cs with
  | nil => rfl
  | cons c t ih =>
    rw [List.map_cons, lastCloudEntry, lastLookup, ih, lastEntry_reverse]

theorem lastLookup_isSome (cs : List (Cloud K V)) (k : K) :
    (lastLookup cs k).isSome = cs.any fun c => containsKey c k := by
  induction cs with
  | nil => rfl
  | cons c t ih =>
    rw [lastLookup, List.any_cons, ← ih, containsKey_eq_isSome]
    cases lastLookup t k <;> cases lookupScan c k <;> simp

theorem mem_keysOf_insertPair (c : Cloud K V) (k k' : K) (r : Ref V) :
    k' ∈ keysOf (insertPair c k r) ↔ k' ∈ keysOf c ∨ k' = k := by
  induction c with
  | nil => simp [insertPair_nil, keysOf]
  | cons hd t ih =>
    obtain ⟨k0, r0⟩ := hd
    by_cases h0 : k0 = k
    · subst h0
      rw [insertPair_cons_eq k0 k0 r0 r t rfl]
      simp [keysOf]
      tauto
    · rw [insertPair_cons_ne k0 k r0 r t h0]
      simp only [keysOf, List.map_cons, List.mem_cons] at *
      tauto

theorem keysNodup_insertPair (c : Cloud K V) (k : K) (r : Ref V)
    (h : (keysOf c).Nodup) : (keysOf (insertPair c k r)).Nodup := by
  induction c with
  | nil => simp [insertPair_nil, keysOf]
  | cons hd t ih =>
    obtain ⟨k0, r0⟩ := hd
    simp only [keysOf, List.map_cons, List.nodup_cons] at h
    obtain ⟨h1, h2⟩ := h
    by_cases h0 : k0 = k
    · subst h0
      rw [insertPair_cons_eq k0 k0 r0 r t rfl]
      simp only [keysOf, List.map_cons, List.nodup_cons]
      exact ⟨h1, h2⟩
    · rw [insertPair_cons_ne k0 k r0 r t h0]
      simp only [keysOf, List.map_cons, List.nodup_cons]
      refine ⟨fun hmem => ?_, ih h2⟩
      rcases (mem_keysOf_insertPair t k k0 r).1 hmem with hm | hm
      · exact h1 (by simpa [keysOf] using hm)
      · exact h0 hm

theorem removePair_sublist (c : Cloud K V) (k : K) :
    (removePair c k).Sublist c := by
  induction c with
  | nil => simp [removePair, removeNode]
  | cons hd t ih =>
    obtain ⟨k0, r0⟩ := hd
    by_cases h0 : k0 = k
    · rw [removePair_cons_eq k0 k r0 t h0]
      exact List.sublist_cons_self _ _
    · rw [removePair_cons_ne k0 k r0 t h0]
      exact ih.cons₂ _

theorem keysNodup_removePair (c : Cloud K V) (k : K) (h : (keysOf c).Nodup) :
    (keysOf (removePair c k)).Nodup :=
  List.Nodup.sublist ((removePair_sublist c k).map Prod.fst) h

theorem keysNodup_filter (c : Cloud K V) (q : K × Ref V → Bool)
    (h : (keysOf c).Nodup) : (keysOf (c.filter q)).Nodup :=
  List.Nodup.sublist ((List.filter_sublist c).map Prod.fst) h

theorem removeNode_snd (c : Cloud K V) (k : K) :
    (removeNode c k).2 = lookupScan c k := by
  induction c with
  | nil => rfl
  | cons hd t ih =>
    obtain ⟨k0, r0⟩ := hd
    by_cases h0 : k0 = k
    · simp [removeNode, lookupScan_cons, h0]
    · simp [removeNode, lookupScan_cons, h0, ih]

theorem lookupScan_removePair (c : Cloud K V) (k k' : K) (h : (keysOf c).Nodup) :
    lookupScan (removePair c k) k' = if k' = k then none else lookupScan c k' := by
  induction c with
  | nil => simp [removePair, removeNode, lookupScan]
  | cons hd t ih =>
    obtain ⟨k0, r0⟩ := hd
    simp only [keysOf, List.map_cons, List.nodup_cons] at h
    obtain ⟨h1, h2⟩ := h
    by_cases h0 : k0 = k
    · subst h0
      rw [removePair_cons_eq k0 k0 r0 t rfl]
      rcases eq_or_ne k' k0 with h | h
      · subst h
        rw [if_pos rfl, lookupScan_eq_none t k' (by simpa [keysOf] using h1)]
      · rw [if_neg h, lookupScan_cons, if_neg (fun hh => h hh.symm)]
    · rw [removePair_cons_ne k0 k r0 t h0, lookupScan_cons, ih h2, lookupScan_cons]
      rcases eq_or_ne k0 k' with h | h
      · subst h
        simp [fun hh : k0 = k => h0 hh]
      · simp [h]

theorem lookupScan_filter (c : Cloud K V) (q : K × Ref V → Bool) (k : K)
    (h : (keysOf c).Nodup) :
    lookupScan (c.filter q) k =
      (lookupScan c k).bind fun r => if q (k, r) then some r else none := by
  induction c with
  | nil => rfl
  | cons hd t ih =>
    obtain ⟨k0, r0⟩ := hd
    simp only [keysOf, List.map_cons, List.nodup_cons] at h
    obtain ⟨h1, h2⟩ := h
    by_cases h0 : k0 = k
    · subst h0
      rw [lookupScan_cons, if_pos rfl]
      cases hq : q (k0, r0) with
      | true =>
        rw [List.filter_cons_of_pos hq, lookupScan_cons, if_pos rfl]
        simp [hq]
      | false =>
        rw [List.filter_cons_of_neg (by simp [hq])]
        have hnot : k0 ∉ keysOf (t.filter q) := fun hm =>
          h1 (by
            have := ((List.filter_sublist t).map Prod.fst).subset hm
            simpa [keysOf] using this)
        rw [lookupScan_eq_none _ k0 hnot]
        simp [hq]
    · rw [lookupScan_cons, if_neg h0]
      cases hq : q (k0, r0) with
      | true =>
        rw [List.filter_cons_of_pos hq, lookupScan_cons, if_neg h0, ih h2]
      | false =>
        rw [List.filter_cons_of_neg (by simp [hq]), ih h2]

theorem keysNodup_applyOp (c : Cloud K V) (op : Op K V) (h : (keysOf c).Nodup) :
    (keysOf (applyOp c op)).Nodup := by
  cases op with
  | insert k r => exact keysNodup_insertPair c k r h
  | remove k => exact keysNodup_removePair c k h
  | clear => simp [applyOp, keysOf]
  | retain p => exact keysNodup_filter c _ h

theorem lookupScan_applyOp (c : Cloud K V) (op : Op K V) (k : K)
    (h : (keysOf c).Nodup) :
    lookupScan (applyOp c op) k = stepLookup k (lookupScan c k) op := by
  cases op with
  | insert k' r =>
    rw [applyOp, lookupScan_insertPair, stepLookup]
    rcases eq_or_ne k' k with hh | hh
    · subst hh; simp
    · simp [hh, Ne.symm hh]
  | remove k' =>
    rw [applyOp, lookupScan_removePair c k' k h, stepLookup]
    rcases eq_or_ne k' k with hh | hh
    · subst hh; simp
    · simp [hh, Ne.symm hh]
  | clear => rfl
  | retain p => exact lookupScan_filter c _ k h

theorem keysNodup_foldl_applyOp (ops : List (Op K V)) (c : Cloud K V)
    (h : (keysOf c).Nodup) : (keysOf (ops.foldl applyOp c)).Nodup := by
  induction ops generalizing c with
  | nil => exact h
  | cons op t ih => exact ih (applyOp c op) (keysNodup_applyOp c op h)

theorem keysNodup_runOps (ops : List (Op K V)) : (keysOf (runOps ops)).Nodup :=
  keysNodup_foldl_applyOp ops [] (by simp [keysOf])

theorem lookupScan_foldl_applyOp (ops : List (Op K V)) (c : Cloud K V) (k : K)
    (h : (keysOf c).Nodup) :
    lookupScan (ops.foldl applyOp c) k = ops.foldl (stepLookup k) (lookupScan c k) := by
  induction ops generalizing c with
  | nil => rfl
  | cons op t ih =>
    rw [List.foldl_cons, List.foldl_cons, ih (applyOp c op) (keysNodup_applyOp c op h),
      lookupScan_applyOp c op k h]

theorem lookupScan_runOps (ops : List (Op K V)) (k : K) :
    lookupScan (runOps ops) k = specLookup ops k :=
  lookupScan_foldl_applyOp ops [] k (by simp [keysOf])

theorem foldl_stepLookup_of_no_insert (tail : List (Op K V)) (k : K)
    (h : ∀ op ∈ tail, opInserts k op = false) :
    tail.foldl (stepLookup k) none = none := by
  induction tail with
  | nil => rfl
  | cons op t ih =>
    have h0 := h op (by simp)
    have hstep : stepLookup k none op = none := by
      cases op with
      | insert k' r =>
        simp only [opInserts, decide_eq_false_iff_not] at h0
        simp [stepLookup, h0]
      | remove k' => by_cases hh : k' = k <;> simp [stepLookup, hh]
      | clear => rfl
      | retain p => rfl
    rw [List.foldl_cons, hstep, ih fun op' hm => h op' (by simp [hm])]

theorem foldl_stepLookup_of_no_touch (tail : List (Op K V)) (k : K)
    (st : Option (Ref V)) (h : ∀ op ∈ tail, opTouches k op = false) :
    tail.foldl (stepLookup k) st = st := by
  induction tail with
  | nil => rfl
  | cons op t ih =>
    have h0 := h op (by simp)
    have hstep : stepLookup k st op = st := by
      cases op with
      | insert k' r =>
        simp only [opTouches, decide_eq_false_iff_not] at h0
        simp [stepLookup, h0]
      | remove k' =>
        simp only [opTouches, decide_eq_false_iff_not] at h0
        simp [stepLookup, h0]
      | clear => simp [opTouches] at h0
      | retain p => simp [opTouches] at h0
    rw [List.foldl_cons, hstep, ih fun op' hm => h op' (by simp [hm])]

theorem cloudEq_refl (c : Cloud K V) : cloudEq c c = true := by
  induction c with
  | nil => rfl
  | cons hd t ih =>
    rw [cloudEq, List.zip_cons_cons, List.all_cons]
    rw [cloudEq] at ih
    have hb : pairBeq hd hd = true := by simp [pairBeq]
    rw [hb, ih, Bool.and_true]

theorem containsKey_append (a b : Cloud K V) (k : K) :
    containsKey (a ++ b) k = (containsKey a k || containsKey b k) := by
  simp [containsKey, List.any_append]

theorem insertPair_of_not_contains (c : Cloud K V) (k : K) (r : Ref V)
    (h : containsKey c k = false) : insertPair c k r = c ++ [(k, r)] := by
  induction c with
  | nil => rfl
  | cons hd t ih =>
    obtain ⟨k0, r0⟩ := hd
    simp only [containsKey, List.any_cons, Bool.or_eq_false_iff,
      decide_eq_false_iff_not] at h
    rw [insertPair_cons_ne k0 k r0 r t h.1, ih (by simpa [containsKey] using h.2),
      List.cons_append]

theorem insertMany_of_disjoint (l : List (K × Ref V)) (acc : Cloud K V)
    (h1 : (keysOf l).Nodup) (h2 : ∀ k ∈ keysOf l, containsKey acc k = false) :
    insertMany acc l = acc ++ l := by
  induction l generalizing acc with
  | nil => simp [insertMany]
  | cons hd t ih =>
    obtain ⟨k, r⟩ := hd
    simp only [keysOf, List.map_cons, List.nodup_cons] at h1
    obtain ⟨hk, hnd⟩ := h1
    rw [insertMany_cons, insertPair_of_not_contains acc k r (h2 k (by simp [keysOf]))]
    rw [ih (acc ++ [(k, r)]) hnd ?_]
    · simp
    · intro k' hk'
      rw [containsKey_append,
        h2 k' (by
          simp only [keysOf, List.map_cons]
          exact List.mem_cons_of_mem _ hk')]
      have hne : ¬ k = k' := fun hh =>
        hk (by rw [hh]; simpa [keysOf] using hk')
      simp [containsKey, hne]

theorem from_vec_into_vec (c : Cloud K V) (h : (keysOf c).Nodup) :
    from_vec (into_vec c) = c := by
  rw [from_vec, into_vec, insertMany_of_disjoint c [] h fun k _ => rfl]
  simp

theorem emitAll_eq_reverse {α : Type} (n : Nat) (l : List α) (h : l.length ≤ n) :
    emitAll n l = l.reverse := by
  induction n generalizing l with
  | zero =>
    have : l = [] := List.eq_nil_of_length_eq_zero (Nat.le_zero.mp h)
    subst this; rfl
  | succ n ih =>
    rcases List.eq_nil_or_concat l with rfl | ⟨ys, x, rfl⟩
    · rfl
    · have hp : vecPop (ys.concat x) = some (x, ys) := by
        simp [vecPop, List.concat_eq_append, List.getLast?_concat, List.dropLast_concat]
      rw [emitAll, hp]
      have hlen : ys.length ≤ n := by
        simp only [List.concat_eq_append, List.length_append, List.length_cons,
          List.length_nil] at h
        omega
      show x :: emitAll n ys = (ys.concat x).reverse
      rw [ih ys hlen]
      simp [List.concat_eq_append, List.reverse_append]

theorem intoPairs_drain_eq (l : List (K × Ref V)) :
    IntoPairs.drain (⟨l⟩ : IntoPairs K V) = l.reverse := by
  have aux : ∀ n (l' : List (K × Ref V)),
      IntoPairs.drainAux n (⟨l'⟩ : IntoPairs K V) = emitAll n l' := by
    intro n
    induction n with
    | zero => intro l'; rfl
    | succ n ih =>
      intro l'
      simp only [IntoPairs.drainAux, IntoPairs.next, emitAll]
      cases hh : vecPop l' with
      | none => simp
      | some xr => obtain ⟨x, rest⟩ := xr; simp [ih]
  rw [IntoPairs.drain, aux, emitAll_eq_reverse _ _ (le_refl _)]

theorem intoIter_drain_eq (l : List (K × Ref V)) :
    IntoIter.drain (⟨l⟩ : IntoIter K V) = l.reverse := by
  have aux : ∀ n (l' : List (K × Ref V)),
      IntoIter.drainAux n (⟨l'⟩ : IntoIter K V) = emitAll n l' := by
    intro n
    induction n with
    | zero => intro l'; rfl
    | succ n ih =>
      intro l'
      simp only [IntoIter.drainAux, IntoIter.next, emitAll]
      cases hh : vecPop l' with
      | none => simp
      | some xr => obtain ⟨x, rest⟩ := xr; simp [ih]
  rw [IntoIter.drain, aux, emitAll_eq_reverse _ _ (le_refl _)]

theorem mapAdapter_drain_eq (l : List (K × V)) :
    Map.drain (⟨l⟩ : Map K V) = l.reverse := by
  have aux : ∀ n (l' : List (K × V)),
      Map.drainAux n (⟨l'⟩ : Map K V) = emitAll n l' := by
    intro n
    induction n with
    | zero => intro l'; rfl
    | succ n ih =>
      intro l'
      simp only [Map.drainAux, Map.next, emitAll]
      cases hh : vecPop l' with
      | none => simp
      | some xr => obtain ⟨x, rest⟩ := xr; simp [ih]
  rw [Map.drain, aux, emitAll_eq_reverse _ _ (le_refl _)]

theorem iterAdapter_drain_eq (l : List (K × Ref V)) :
    Iter.drain (⟨l⟩ : Iter K V) = l.reverse := by
  have aux : ∀ n (l' : List (K × Ref V)),
      Iter.drainAux n (⟨l'⟩ : Iter K V) = emitAll n l' := by
    intro n
    induction n with
    | zero => intro l'; rfl
    | succ n ih =>
      intro l'
      simp only [Iter.drainAux, Iter.next, emitAll]
      cases hh : vecPop l' with
      | none => simp
      | some xr => obtain ⟨x, rest⟩ := xr; simp [ih]
  rw [Iter.drain, aux, emitAll_eq_reverse _ _ (le_refl _)]

theorem iterMutAdapter_drain_eq (l : List (K × Ref V)) :
    IterMut.drain (⟨l⟩ : IterMut K V) = l.reverse := by
  have aux : ∀ n (l' : List (K × Ref V)),
      IterMut.drainAux n (⟨l'⟩ : IterMut K V) = emitAll n l' := by
    intro n
    induction n with
    | zero => intro l'; rfl
    | succ n ih =>
      intro l'
      simp only [IterMut.drainAux, IterMut.next, emitAll]
      cases hh : vecPop l' with
      | none => simp
      | some xr => obtain ⟨x, rest⟩ := xr; simp [ih]
  rw [IterMut.drain, aux, emitAll_eq_reverse _ _ (le_refl _)]

/-! ## Claims -/

/-- C1: for every key `k` and (non-null, hence representable) value reference
`r`, `insert(k, r)` followed by `get(k)` on the same container returns the
just-inserted reference — the very same `Ref`, identity (`addr`) included,
not merely an `==`-equal one. -/
theorem C1_insert_then_get (c : Cloud K V) (k : K) (r : Ref V) :
    lookupScan (insertPair c k r) k = some r ∧
    (∀ ops tail : List (Op K V), (∀ op ∈ tail, opTouches k op = false) →
      lookupScan (runOps (ops ++ Op.insert k r :: tail)) k = some r) := by
  constructor
  · rw [lookupScan_insertPair]
    simp
  · intro ops tail htail
    rw [lookupScan_runOps, specLookup, List.foldl_append, List.foldl_cons,
      foldl_stepLookup_of_no_touch tail k _ htail]
    simp [stepLookup]

theorem C1_insert_then_get_witness :
    lookupScan (insertPair cEx 2 ⟨7, 42⟩) 2 = some ⟨7, 42⟩ ∧
    lookupScan (runOps (opsEx ++ Op.insert 2 ⟨7, 42⟩ :: tailEx)) 2 = some ⟨7, 42⟩ :=
  ⟨(C1_insert_then_get cEx 2 ⟨7, 42⟩).1,
   (C1_insert_then_get cEx 2 ⟨7, 42⟩).2 opsEx tailEx (by decide)⟩

/-- C2: `merge(a, b)` returns a new container whose key set is the union of
`a`'s and `b`'s; a key present in `b` gets `b`'s value, a key present only in
`a` gets `a`'s value. -/
theorem C2_merge_other_wins (a b : Cloud K V) (hA : (keysOf a).Nodup)
    (hB : (keysOf b).Nodup) :
    (∀ k, containsKey b k = true → lookupScan (merge a b) k = lookupScan b k) ∧
    (∀ k, containsKey b k = false → lookupScan (merge a b) k = lookupScan a k) ∧
    (∀ k, containsKey (merge a b) k = (containsKey a k || containsKey b k)) := by
  have hmain : ∀ k, lookupScan (merge a b) k = (lookupScan b k).or (lookupScan a k) := by
    intro k
    rw [merge, lookupScan_insertMany, lookupScan_insertMany,
      lastEntry_eq_lookupScan b k hB, lastEntry_eq_lookupScan a k hA]
    have h0 : lookupScan ([] : Cloud K V) k = none := rfl
    rw [h0, Option.or_none]
  refine ⟨fun k hk => ?_, fun k hk => ?_, fun k => ?_⟩
  · rw [hmain k, containsKey_eq_isSome] at *
    cases hh : lookupScan b k with
    | none => rw [hh] at hk; simp at hk
    | some r => simp [Option.or]
  · rw [hmain k, containsKey_eq_isSome] at *
    cases hh : lookupScan b k with
    | none => simp [Option.or]
    | some r => rw [hh] at hk; simp at hk
  · rw [containsKey_eq_isSome, hmain k, Option.isSome_or,
      containsKey_eq_isSome, containsKey_eq_isSome, Bool.or_comm]

theorem C2_merge_other_wins_witness :
    lookupScan (merge cEx bEx) 1 = lookupScan bEx 1 ∧
    lookupScan (merge cEx bEx) 0 = lookupScan cEx 0 ∧
    containsKey (merge cEx bEx) 2 = (containsKey cEx 2 || containsKey bEx 2) :=
  ⟨(C2_merge_other_wins cEx bEx (by decide) (by decide)).1 1 (by decide),
   (C2_merge_other_wins cEx bEx (by decide) (by decide)).2.1 0 (by decide),
   (C2_merge_other_wins cEx bEx (by decide) (by decide)).2.2 2⟩

/-- C3: `merge_all(a, [b1, ..., bn])` is the union of `a` and all `bi` in
list order: the value for a key is the one held by the last list element
containing it, falling back to `a`'s value — the latest container wins over
earlier list elements and over `a` itself. -/
theorem C3_merge_all_last_wins (a : Cloud K V) (bs : List (Cloud K V))
    (hA : (keysOf a).Nodup) (hBs : ∀ b ∈ bs, (keysOf b).Nodup) :
    (∀ k, lookupScan (merge_all a bs) k = (lastLookup bs k).or (lookupScan a k)) ∧
    (∀ k, containsKey (merge_all a bs) k =
      (containsKey a k || bs.any fun b => containsKey b k)) := by
  have hmain : ∀ k,
      lookupScan (merge_all a bs) k = (lastLookup bs k).or (lookupScan a k) := by
    intro k
    rw [merge_all, lookupScan_foldl_insertMany, lookupScan_insertMany,
      lastEntry_eq_lookupScan a k hA, lastCloudEntry_eq_lastLookup bs k hBs]
    have h0 : lookupScan ([] : Cloud K V) k = none := rfl
    rw [h0, Option.or_none]
  refine ⟨hmain, fun k => ?_⟩
  rw [containsKey_eq_isSome, hmain k, Option.isSome_or, lastLookup_isSome,
    ← containsKey_eq_isSome, Bool.or_comm]

theorem C3_merge_all_last_wins_witness :
    lookupScan (merge_all cEx [bEx, dEx]) 1 =
      (lastLookup [bEx, dEx] 1).or (lookupScan cEx 1) ∧
    containsKey (merge_all cEx [bEx, dEx]) 2 =
      (containsKey cEx 2 || [bEx, dEx].any fun b => containsKey b 2) :=
  ⟨(C3_merge_all_last_wins cEx [bEx, dEx] (by decide) (by decide)).1 1,
   (C3_merge_all_last_wins cEx [bEx, dEx] (by decide) (by decide)).2 2⟩

/-- C4: `combine_with(a, [b1, ..., bn])` folds the list in order (later list
elements overwrite earlier ones) and then layers `a`'s entries on top, so
`a`'s value wins on any key `a` contains — the inverse priority of
`merge_all`. -/
theorem C4_combine_with_self_wins (a : Cloud K V) (bs : List (Cloud K V))
    (hA : (keysOf a).Nodup) :
    (∀ k, lookupScan (combine_with a bs) k = (lookupScan a k).or (lastLookup bs k)) ∧
    (∀ k, containsKey (combine_with a bs) k =
      (containsKey a k || bs.any fun b => containsKey b k)) := by
  have hmain : ∀ k,
      lookupScan (combine_with a bs) k = (lookupScan a k).or (lastLookup bs k) := by
    intro k
    rw [combine_with, lookupScan_insertMany, lastEntry_eq_lookupScan a k hA,
      lookupScan_foldl_insertMany_rev]
    have h0 : lookupScan ([] : Cloud K V) k = none := rfl
    rw [h0, Option.or_none, lastCloudEntry_map_reverse]
  refine ⟨hmain, fun k => ?_⟩
  rw [containsKey_eq_isSome, hmain k, Option.isSome_or, lastLookup_isSome,
    ← containsKey_eq_isSome]

theorem C4_combine_with_self_wins_witness :
    lookupScan (combine_with cEx [bEx]) 1 =
      (lookupScan cEx 1).or (lastLookup [bEx] 1) ∧
    containsKey (combine_with cEx [bEx]) 2 =
      (containsKey cEx 2 || [bEx].any fun b => containsKey b 2) :=
  ⟨(C4_combine_with_self_wins cEx [bEx] (by decide)).1 1,
   (C4_combine_with_self_wins cEx [bEx] (by decide)).2 2⟩

/-- C5: `insert_from_raw(k, p)` with a null `p` returns the null-pointer
error and leaves the container's contents unchanged; with a non-null `p` it
behaves identically to `insert(k, *p)`, returning the previous reference for
`k` or none. -/
theorem C5_insert_from_raw_null (c : Cloud K V) (k : K) (r : Ref V) :
    insert_from_raw c k none =
      (c, Except.error ⟨"Tried to insert null pointer in DataCloud"⟩) ∧
    insert_from_raw c k (some r) =
      ((insertNode c k r).1, Except.ok (insertNode c k r).2) :=
  ⟨rfl, rfl⟩

theorem C5_insert_from_raw_null_witness :
    insert_from_raw cEx 0 none =
      (cEx, Except.error ⟨"Tried to insert null pointer in DataCloud"⟩) ∧
    insert_from_raw cEx 0 (some ⟨3, 4⟩) =
      ((insertNode cEx 0 ⟨3, 4⟩).1, Except.ok (insertNode cEx 0 ⟨3, 4⟩).2) :=
  C5_insert_from_raw_null cEx 0 ⟨3, 4⟩

/-- C6: `or_insert(k, r)` on a present key leaves the container unchanged
and returns `true` ("already present"); on an absent key it inserts `r`
under `k` and returns `false` ("was new"). -/
theorem C6_or_insert (c : Cloud K V) (k : K) (r : Ref V) :
    (containsKey c k = true → or_insert c k r = (c, true)) ∧
    (containsKey c k = false →
      or_insert c k r = (insertPair c k r, false) ∧
      lookupScan (or_insert c k r).1 k = some r) := by
  constructor
  · intro h
    simp [or_insert, h]
  · intro h
    refine ⟨by simp [or_insert, h], ?_⟩
    simp only [or_insert, h, Bool.false_eq_true, if_false]
    rw [lookupScan_insertPair]
    simp

theorem C6_or_insert_witness :
    or_insert cEx 2 (⟨9, 30⟩ : Ref Nat) = (insertPair cEx 2 ⟨9, 30⟩, false) ∧
    or_insert cEx 0 (⟨9, 30⟩ : Ref Nat) = (cEx, true) :=
  ⟨((C6_or_insert cEx 2 ⟨9, 30⟩).2 (by decide)).1,
   (C6_or_insert cEx 0 ⟨9, 30⟩).1 (by decide)⟩

/-- C7: every iterator adapter (`into_pairs`, `into_iter`, `map`, `iter`,
`iter_mut`) snapshots the entries into a vector at construction time
(`map` applying its transformation at snapshot time) and yields exactly the
snapshot's elements in reverse snapshot order, each exactly once; once the
snapshot vector is empty, `next` returns none forever and the adapter state
no longer changes. -/
theorem C7_iterator_adapters (c : Cloud K V) (f : K × Ref V → K × V) :
    (into_pairs c).pairs = into_vec c ∧
    (into_pairs c).drain = (into_vec c).reverse ∧
    IntoPairs.next (⟨[]⟩ : IntoPairs K V) = (none, ⟨[]⟩) ∧
    (into_iter c).pairs = into_vec c ∧
    (into_iter c).drain = (into_vec c).reverse ∧
    IntoIter.next (⟨[]⟩ : IntoIter K V) = (none, ⟨[]⟩) ∧
    (map c f).pairs = (into_vec c).map f ∧
    (map c f).drain = ((into_vec c).map f).reverse ∧
    Map.next (⟨[]⟩ : Map K V) = (none, ⟨[]⟩) ∧
    (iter c).pairs = into_vec c ∧
    (iter c).drain = (into_vec c).reverse ∧
    Iter.next (⟨[]⟩ : Iter K V) = (none, ⟨[]⟩) ∧
    (iter_mut c).pairs = into_vec c ∧
    (iter_mut c).drain = (into_vec c).reverse ∧
    IterMut.next (⟨[]⟩ : IterMut K V) = (none, ⟨[]⟩) :=
  ⟨rfl, intoPairs_drain_eq c, rfl,
   rfl, intoIter_drain_eq c, rfl,
   rfl, mapAdapter_drain_eq (c.map f), rfl,
   rfl, iterAdapter_drain_eq c, rfl,
   rfl, iterMutAdapter_drain_eq c, rfl⟩

theorem C7_iterator_adapters_witness :
    (into_pairs cEx).drain = (into_vec cEx).reverse ∧
    IntoPairs.next (⟨[]⟩ : IntoPairs Nat Nat) = (none, ⟨[]⟩) :=
  ⟨(C7_iterator_adapters cEx fun kv => (kv.1, kv.2.val)).2.1,
   (C7_iterator_adapters cEx fun kv => (kv.1, kv.2.val)).2.2.1⟩

/-- C8 (counterexample): the claim that `into_vec` followed by `from_vec`
yields a container equal to the original under the implemented equality
*regardless of any iteration-order differences between the two* is false:
two containers holding exactly the same entries (`dEx` is a permutation of
`cEx`) in different iteration orders — both reachable hash-map iteration
orders of the same content, and the rebuild fixes no particular order —
compare unequal under the zip-based `PartialEq`. -/
theorem C8_round_trip_counterexample :
    ¬ (∀ (c d : Cloud Nat Nat), (keysOf c).Nodup → c.Perm d → cloudEq c d = true) := by
  intro h
  exact absurd (h cEx dEx (by decide) (by decide)) (by decide)

/-- C8 (amended): `into_vec` followed by `from_vec` reproduces the
container's entries exactly, and when the rebuilt container's iteration
order agrees with the original's — as in this embedding, where reinsertion
of the snapshot in order reproduces the original entry order — the result
equals the original and compares equal under the implemented equality.
(The implemented equality is iteration-order sensitive, so a rebuild landing
in a different iteration order of the same entries need not compare equal;
see the counterexample.) -/
theorem C8_round_trip (c : Cloud K V) (h : (keysOf c).Nodup) :
    from_vec (into_vec c) = c ∧ cloudEq c (from_vec (into_vec c)) = true := by
  have he := from_vec_into_vec c h
  exact ⟨he, by rw [he]; exact cloudEq_refl c⟩

theorem C8_round_trip_witness :
    from_vec (into_vec cEx) = cEx ∧ cloudEq cEx (from_vec (into_vec cEx)) = true :=
  C8_round_trip cEx (by decide)

/-- C9: `remove(k)` followed by `get(k)` (with no intervening insertion of
`k`, arbitrary operations on other keys allowed) returns absence; `remove`
returns the removed reference when present and none otherwise; and after any
operation history `contains_key(k)` is true exactly when `k` has been
inserted and not since removed, cleared, or dropped by `retain`
(`specLookup` is that history reading). -/
theorem C9_remove_then_get (ops tail : List (Op K V)) (k : K)
    (h : ∀ op ∈ tail, opInserts k op = false) :
    lookupScan (removePair (runOps ops) k) k = none ∧
    (removeNode (runOps ops) k).2 = lookupScan (runOps ops) k ∧
    containsKey (runOps ops) k = (specLookup ops k).isSome ∧
    lookupScan (runOps (ops ++ Op.remove k :: tail)) k = none := by
  refine ⟨?_, removeNode_snd _ k, ?_, ?_⟩
  · rw [lookupScan_removePair _ k k (keysNodup_runOps ops)]
    simp
  · rw [containsKey_eq_isSome, lookupScan_runOps]
  · rw [lookupScan_runOps, specLookup, List.foldl_append, List.foldl_cons]
    have hstep :
        stepLookup k (List.foldl (stepLookup k) none ops) (Op.remove k) = none := by
      simp [stepLookup]
    rw [hstep, foldl_stepLookup_of_no_insert tail k h]

theorem C9_remove_then_get_witness :
    lookupScan (removePair (runOps opsEx) 0) 0 = none ∧
    (removeNode (runOps opsEx) 0).2 = lookupScan (runOps opsEx) 0 ∧
    containsKey (runOps opsEx) 0 = (specLookup opsEx 0).isSome ∧
    lookupScan (runOps (opsEx ++ Op.remove 0 :: tailEx)) 0 = none :=
  C9_remove_then_get opsEx tailEx 0 (by decide)

/-- C10: the implemented equality compares only the zipped common prefix of
the two entry sequences and never the lengths, so the empty container
compares equal to every container, and containers with different numbers of
entries can compare equal — it is not structural equality of key-value
sets. -/
theorem C10_eq_ignores_length :
    (∀ (K V : Type) [DecidableEq K] [DecidableEq V] (c : Cloud K V),
      cloudEq ([] : Cloud K V) c = true) ∧
    cloudEq exShort exLong = true ∧
    (into_vec exShort).length ≠ (into_vec exLong).length := by
  refine ⟨?_, by decide, by decide⟩
  intro K V _ _ c
  rfl

theorem C10_eq_ignores_length_witness :
    cloudEq ([] : Cloud Nat Nat) cEx = true :=
  C10_eq_ignores_length.1 Nat Nat cEx

end Cloudr
